import Mathlib

/-!
Verification of the coordination and resource-management core of the
multi-instance extractor (src/anime_index/ser.py and src/anime_index/v.py,
plus the worker loop of src/allanime.py).

The embedding is shallow: the JSON work items, the lock-marker store, the
tab pool and the control flow of the Python functions are translated into
executable Lean definitions, and the frozen claims are settled as theorems
about those definitions.  Definitions in namespace `Ser` embed
src/anime_index/ser.py; definitions in namespace `V` embed
src/anime_index/v.py; shared structure lives at the root.
-/

/-- One episode record of a work-item JSON file: an input URL and the
nullable extracted value `iframe_url`.  A missing `url` key is modelled as
the empty string (Python `episode.get('url')` is falsy in both cases). -/
structure Episode where
  url : String
  iframe_url : Option String
deriving DecidableEq, Repr

/-- One anime entry: the ordered list of its episodes (the only field the
coordination core reads or writes). -/
structure Anime where
  episodes : List Episode
deriving DecidableEq, Repr

/-- One work-item file: `data.get('anime', [])`. -/
structure WorkData where
  anime : List Anime
deriving DecidableEq, Repr

/-- Python truthiness of a nullable string field: `None` and the empty
string are falsy (`if episode.get('iframe_url')`). -/
def truthy : Option String → Bool
  | none => false
  | some s => !s.isEmpty

/-- An episode is pending when its `iframe_url` is absent or falsy
(`if not episode.get('iframe_url')` in both variants). -/
def pendingEp (ep : Episode) : Bool := !truthy ep.iframe_url

/-- Position of an episode inside a work item: (anime index, episode index). -/
abbrev Pos := Nat × Nat

/-- Inner gathering loop: positions of pending episodes of one anime,
`ai` being the anime index and `j` the index of the first episode. -/
def pendingInEpisodes (ai : Nat) : Nat → List Episode → List Pos
  | _, [] => []
  | j, e :: es =>
    if pendingEp e then (ai, j) :: pendingInEpisodes ai (j + 1) es
    else pendingInEpisodes ai (j + 1) es

/-- Outer gathering loop over the anime list, `i` being the index of the
first anime. -/
def pendingInAnime : Nat → List Anime → List Pos
  | _, [] => []
  | i, a :: rest => pendingInEpisodes i 0 a.episodes ++ pendingInAnime (i + 1) rest

/-- The ordered list of positions of pending episodes, scanning anime in
order and episodes in order, as the gathering loops of both
`process_file` variants do. -/
def pendingPositions (d : WorkData) : List Pos :=
  pendingInAnime 0 d.anime

/-- Look up the episode at a position. -/
def episodeAt (d : WorkData) (p : Pos) : Option Episode :=
  (d.anime.get? p.1).bind (fun a => a.episodes.get? p.2)

/-- Total variant of `episodeAt` (positions produced by `pendingPositions`
are always valid). -/
def epAtD (d : WorkData) (p : Pos) : Episode :=
  (episodeAt d p).getD ⟨"", none⟩

/-- Point update of a list at an index; out-of-range indices leave the
list unchanged. -/
def updList {α : Type} : Nat → (α → α) → List α → List α
  | _, _, [] => []
  | 0, f, x :: xs => f x :: xs
  | n + 1, f, x :: xs => x :: updList n f xs

/-- Replace the episode stored at a position (in-place mutation of the
episode dict reachable from `data`). -/
def setEpisodeAt (d : WorkData) (p : Pos) (e : Episode) : WorkData :=
  ⟨updList p.1 (fun a => ⟨updList p.2 (fun _ => e) a.episodes⟩) d.anime⟩

/-- Apply a list of positioned episode updates left to right. -/
def applyUpdates (d : WorkData) (ups : List (Pos × Episode)) : WorkData :=
  ups.foldl (fun acc pr => setEpisodeAt acc pr.1 pr.2) d

/-- Observable events of a `process_file` run: lock-marker creation and
removal, extraction calls against episode URLs, durable writes of the
whole work item, and failure-log records. -/
inductive Event where
  | lockAcq (f : String)
  | lockRel (f : String)
  | extract (url : String)
  | persist (d : WorkData)
  | failLog (url : String) (reason : String)
deriving DecidableEq, Repr

/-- The sequence of work-item snapshots written to durable storage. -/
def persistedDatas (evs : List Event) : List WorkData :=
  evs.filterMap (fun e => match e with | Event.persist d => some d | _ => none)

/-- The sequence of URLs handed to the extraction collaborator. -/
def extractUrls (evs : List Event) : List String :=
  evs.filterMap (fun e => match e with | Event.extract u => some u | _ => none)

/-- The failure-log records (episode URL, captured reason) in order. -/
def failLogs (evs : List Event) : List (String × String) :=
  evs.filterMap (fun e => match e with | Event.failLog u r => some (u, r) | _ => none)

/-- Outcome of one episode task as observed by `asyncio.gather(...,
return_exceptions=True)`: either the value returned by
`extract_iframe_url` (a URL or `None`), or a raised exception. -/
inductive TaskOutcome where
  | res (r : Option String)
  | exn (msg : String)
deriving DecidableEq, Repr

/-- The extraction collaborator as an oracle from episode URL to task
outcome (the page-inspection heuristics are out of scope). -/
abbrev Oracle := String → TaskOutcome

/-- `process_single_episode` without the tab bookkeeping: an episode with
a falsy `url` returns `None` without calling the collaborator; otherwise
the collaborator runs once on the URL. -/
def runSingleEpisode (oracle : Oracle) (ep : Episode) :
    Except String (Option String) × List Event :=
  if ep.url.isEmpty then (Except.ok none, [])
  else
    (match oracle ep.url with
     | TaskOutcome.res r => Except.ok r
     | TaskOutcome.exn m => Except.error m,
     [Event.extract ep.url])

/-- The value stored into `episode['iframe_url']` by the bookkeeping loop
of `process_episode_batch`: `None` on a raised exception, the returned
value otherwise. -/
def recordedResult : Except String (Option String) → Option String
  | Except.error _ => none
  | Except.ok r => r

/-- The failure reason attached to an episode by the ser.py bookkeeping
loop, if any: the captured exception text, or the fixed message when the
collaborator returned a falsy value; `none` on success. -/
def failReason : Except String (Option String) → Option String
  | Except.error m => some m
  | Except.ok r => if truthy r then none else some "No iframe found (None result)"

/-- Result bundle of one `process_episode_batch` call. -/
structure BatchOut where
  updated : List Episode
  processed_in_batch : Nat
  errors_in_batch : Nat
  events : List Event
deriving DecidableEq, Repr

namespace Ser

/-- Bookkeeping for one episode in ser.py `process_episode_batch`
(lines 397-418): store the result (or `None`), flag success exactly when
the stored value is truthy, and emit one failure-log record otherwise. -/
def book_entry (ep : Episode) (tr : Except String (Option String)) :
    Episode × Bool × List Event :=
  ({ ep with iframe_url := recordedResult tr },
   (failReason tr).isNone,
   match failReason tr with
   | some m => [Event.failLog ep.url m]
   | none => [])

/-- ser.py `MultiInstanceAnimeExtractor.process_episode_batch`: run every
episode task, then walk the gathered results in order, recording values,
counting successes and errors, and logging one failure record per failed
episode. -/
def process_episode_batch (oracle : Oracle) (batch : List Episode) : BatchOut :=
  let entries := batch.map (fun ep => book_entry ep (runSingleEpisode oracle ep).1)
  { updated := entries.map (fun en => en.1)
    processed_in_batch := (entries.filter (fun en => en.2.1)).length
    errors_in_batch := (entries.filter (fun en => !en.2.1)).length
    events := (batch.map (fun ep => (runSingleEpisode oracle ep).2)).flatten
      ++ (entries.map (fun en => en.2.2)).flatten }

end Ser

namespace V

/-- Bookkeeping for one episode in v.py `process_episode_batch`
(lines 334-345): store the result (or `None`) and flag success exactly
when the stored value is truthy.  v.py has no failure logger. -/
def book_entry (ep : Episode) (tr : Except String (Option String)) :
    Episode × Bool :=
  ({ ep with iframe_url := recordedResult tr }, (failReason tr).isNone)

/-- v.py `MultiInstanceAnimeExtractor.process_episode_batch`: like the
ser.py variant but with no failure-log records. -/
def process_episode_batch (oracle : Oracle) (batch : List Episode) : BatchOut :=
  let entries := batch.map (fun ep => book_entry ep (runSingleEpisode oracle ep).1)
  { updated := entries.map (fun en => en.1)
    processed_in_batch := (entries.filter (fun en => en.2)).length
    errors_in_batch := (entries.filter (fun en => !en.2)).length
    events := (batch.map (fun ep => (runSingleEpisode oracle ep).2)).flatten }

end V

/-- The slicing loop `for i in range(0, len(lst), n): batch = lst[i:i+n]`:
the i-th chunk is `lst[i*n : i*n + n]`, and the number of iterations is
`(len + n - 1) // n`, the expression v.py itself uses for
`total_batches`.  For `n = 0` the Python loop raises; the Lean model
returns `[]` and all theorems assume `0 < n`. -/
def chunkList (n : Nat) (l : List α) : List (List α) :=
  (List.range ((l.length + n - 1) / n)).map (fun i => (l.drop (i * n)).take n)

/-- The lock-marker store: one entry per lock file name, carrying the
marker modification time (`os.path.getmtime`). -/
abbrev LockStore := List (String × Nat)

/-- `os.path.exists` + `os.path.getmtime` for a lock marker. -/
def lookupLock : LockStore → String → Option Nat
  | [], _ => none
  | (g, m) :: rest, f => if g = f then some m else lookupLock rest f

/-- `os.remove` of a lock marker. -/
def removeLock : LockStore → String → LockStore
  | [], _ => []
  | (g, m) :: rest, f =>
    if g = f then removeLock rest f else (g, m) :: removeLock rest f

/-- `lock_file`: (re)write the marker, stamping the current time. -/
def lock_file (s : LockStore) (f : String) (now : Nat) : LockStore :=
  (f, now) :: removeLock s f

/-- `unlock_file`: remove the marker if present. -/
def unlock_file (s : LockStore) (f : String) : LockStore := removeLock s f

/-- `InstanceCoordinator.is_file_being_processed` (ser.py lines 40-48,
v.py lines 42-54): a missing marker is not busy; a marker older than 600
time-units is stale, removed on the spot, and reported not busy; a fresh
marker is busy. -/
def is_file_being_processed (now : Nat) (s : LockStore) (f : String) :
    Bool × LockStore :=
  match lookupLock s f with
  | none => (false, s)
  | some m => if now - m > 600 then (false, removeLock s f) else (true, s)

/-- `InstanceCoordinator.get_available_files`: scan the candidate files in
order, keeping those not being processed; the staleness check mutates the
store as it goes. -/
def get_available_files (now : Nat) : LockStore → List String → List String × LockStore
  | s, [] => ([], s)
  | s, f :: rest =>
    let b := is_file_being_processed now s f
    let r := get_available_files now b.2 rest
    (if b.1 then r.1 else f :: r.1, r.2)

/-- A marker that exists and is not older than 600 time-units. -/
def hasLiveLock (now : Nat) (s : LockStore) (f : String) : Bool :=
  match lookupLock s f with
  | none => false
  | some m => !(now - m > 600)

/-- ser.py `GlobalProgress` (file-level part): the completed set, the
in-flight map, and the total file count. -/
structure GlobalProgress where
  completed_files : List String
  currently_processing : List (String × String)
  total_files : Nat
deriving DecidableEq, Repr

/-- Set insertion for `self.completed_files.add`. -/
def insertFile (l : List String) (f : String) : List String :=
  if f ∈ l then l else f :: l

/-- Delete a key from the in-flight dict. -/
def removeKey : List (String × String) → String → List (String × String)
  | [], _ => []
  | (g, i) :: rest, f =>
    if g = f then removeKey rest f else (g, i) :: removeKey rest f

/-- `GlobalProgress.mark_file_started`: record the file as in flight. -/
def mark_file_started (gp : GlobalProgress) (f inst : String) : GlobalProgress :=
  { gp with currently_processing := (f, inst) :: removeKey gp.currently_processing f }

/-- `GlobalProgress.mark_file_completed` (ser.py lines 91-95): add the
file to the completed set and drop it from the in-flight map. -/
def mark_file_completed (gp : GlobalProgress) (f : String) : GlobalProgress :=
  { gp with
    completed_files := insertFile gp.completed_files f
    currently_processing := removeKey gp.currently_processing f }

/-- The `remaining` field of `GlobalProgress.get_status`. -/
def remainingFiles (gp : GlobalProgress) : Nat :=
  gp.total_files - gp.completed_files.length - gp.currently_processing.length

/-- Outcome of the read phase of `process_file` (open + read +
`json.loads`): a parsed work item, an `Exception` (caught by the
`except Exception` arm), or a `BaseException` such as a cancellation that
escapes the `except` arm but still runs the `finally`. -/
inductive ReadOutcome where
  | ok (d : WorkData)
  | exn (msg : String)
  | interrupt (msg : String)
deriving Repr

/-- How a call leaves the caller: a returned value or a propagating
exception. -/
inductive RunResult (α : Type) where
  | ret (a : α)
  | raised (msg : String)
deriving DecidableEq, Repr

namespace Ser

/-- `batch_size = 5` (ser.py line 482): the ser.py wave size is a fixed
constant. -/
def batch_size : Nat := 5

/-- Constructor defaults of ser.py `MultiInstanceAnimeExtractor.__init__`:
`max_browsers = 3`. -/
def default_max_browsers : Nat := 3

/-- Constructor defaults of ser.py `MultiInstanceAnimeExtractor.__init__`:
`max_tabs_per_browser = 3`. -/
def default_max_tabs_per_browser : Nat := 3

/-- The waves processed by ser.py `process_file`: the pending list chunked
by the fixed `batch_size`. -/
def waves (d : WorkData) : List (List Pos) :=
  chunkList batch_size (pendingPositions d)

/-- `if original_episode.get('url') == updated_episode.get('url'): ...;
break`: replace the first URL match in one episode list. -/
def replaceFirstByUrl (u : String) (e : Episode) : List Episode → List Episode
  | [] => []
  | x :: xs => if x.url = u then e :: xs else x :: replaceFirstByUrl u e xs

/-- The ser.py copy-back loop (lines 497-502): for one updated episode,
the inner `break` only leaves the episode loop, so the first URL match in
every anime is replaced. -/
def copyBackOne (d : WorkData) (ue : Episode) : WorkData :=
  ⟨d.anime.map (fun a => ⟨replaceFirstByUrl ue.url ue a.episodes⟩)⟩

/-- The copy-back loop over a whole updated batch, in order. -/
def copyBack (d : WorkData) (ups : List Episode) : WorkData :=
  ups.foldl copyBackOne d

/-- One wave of ser.py `process_file`: gather the wave episodes, process
the batch, mutate the wave positions in place, then run the copy-back
loop.  No durable write happens here. -/
def stepWave (oracle : Oracle) (d : WorkData) (w : List Pos) : WorkData × BatchOut :=
  let batch := w.map (epAtD d)
  let bo := process_episode_batch oracle batch
  let d1 := applyUpdates d (w.zip bo.updated)
  (copyBack d1 bo.updated, bo)

/-- The ser.py wave loop: process the waves in order, accumulating events;
the work item is written only after the loop. -/
def runWaves (oracle : Oracle) (d : WorkData) : List (List Pos) → WorkData × List Event
  | [] => (d, [])
  | w :: rest =>
    let s := stepWave oracle d w
    let r := runWaves oracle s.1 rest
    (r.1, s.2.events ++ r.2)

/-- Result bundle of one ser.py `process_file` call. -/
structure FileRun where
  result : RunResult Bool
  data : Option WorkData
  locks : LockStore
  progress : GlobalProgress
  events : List Event
deriving Repr

/-- ser.py `MultiInstanceAnimeExtractor.process_file` (lines 442-527):
mark the file started, lock it, read it, process all pending episodes in
waves of `batch_size`, write the file once after the loop, mark it
completed, and return `True`; on a caught exception mark it completed
anyway and return `False`; unlock in `finally` on every path. -/
def process_file (oracle : Oracle) (ro : ReadOutcome) (fp inst : String)
    (now : Nat) (lk : LockStore) (gp : GlobalProgress) : FileRun :=
  let gp1 := mark_file_started gp fp inst
  let lk1 := lock_file lk fp now
  match ro with
  | ReadOutcome.ok d =>
    let r := runWaves oracle d (waves d)
    { result := RunResult.ret true
      data := some r.1
      locks := unlock_file lk1 fp
      progress := mark_file_completed gp1 fp
      events := Event.lockAcq fp :: (r.2 ++ [Event.persist r.1, Event.lockRel fp]) }
  | ReadOutcome.exn _ =>
    { result := RunResult.ret false
      data := none
      locks := unlock_file lk1 fp
      progress := mark_file_completed gp1 fp
      events := [Event.lockAcq fp, Event.lockRel fp] }
  | ReadOutcome.interrupt m =>
    { result := RunResult.raised m
      data := none
      locks := unlock_file lk1 fp
      progress := gp1
      events := [Event.lockAcq fp, Event.lockRel fp] }

end Ser

namespace V

/-- `batch_size = self.max_browsers * self.max_tabs_per_browser`
(v.py line 398): the v.py wave size is the pool-wide tab capacity. -/
def batch_size (max_browsers max_tabs_per_browser : Nat) : Nat :=
  max_browsers * max_tabs_per_browser

/-- The waves processed by v.py `process_file`: the pending list chunked
by the capacity-derived `batch_size`. -/
def waves (mb mt : Nat) (d : WorkData) : List (List Pos) :=
  chunkList (batch_size mb mt) (pendingPositions d)

/-- One wave of v.py `process_file`: gather the wave episodes, process the
batch, mutate the wave positions in place.  v.py has no copy-back loop. -/
def stepWave (oracle : Oracle) (d : WorkData) (w : List Pos) : WorkData × BatchOut :=
  let batch := w.map (epAtD d)
  let bo := process_episode_batch oracle batch
  (applyUpdates d (w.zip bo.updated), bo)

/-- The v.py wave loop (lines 402-413): process each wave and write the
whole work item to disk immediately after it, before the next wave. -/
def runWaves (oracle : Oracle) (d : WorkData) : List (List Pos) → WorkData × List Event
  | [] => (d, [])
  | w :: rest =>
    let s := stepWave oracle d w
    let r := runWaves oracle s.1 rest
    (r.1, s.2.events ++ Event.persist s.1 :: r.2)

/-- The checkpoint sequence of the v.py wave loop: the work item as it
stands after each successive wave. -/
def checkpoints (oracle : Oracle) (d : WorkData) : List (List Pos) → List WorkData
  | [] => []
  | w :: rest =>
    let d1 := (stepWave oracle d w).1
    d1 :: checkpoints oracle d1 rest

/-- Result bundle of one v.py `process_file` call. -/
structure FileRun where
  result : RunResult Bool
  data : Option WorkData
  locks : LockStore
  files_processed_delta : Nat
  events : List Event
deriving Repr

/-- v.py `MultiInstanceAnimeExtractor.process_file` (lines 360-425): lock,
read, gather the pending episodes; if none, count the file processed and
return `True` immediately with no write; otherwise process capacity-sized
waves, saving after every wave, then count the file processed and return
`True`; on a caught exception return `False`; unlock in `finally` on
every path. -/
def process_file (mb mt : Nat) (oracle : Oracle) (ro : ReadOutcome)
    (fp : String) (now : Nat) (lk : LockStore) : FileRun :=
  let lk1 := lock_file lk fp now
  match ro with
  | ReadOutcome.ok d =>
    if pendingPositions d = [] then
      { result := RunResult.ret true
        data := some d
        locks := unlock_file lk1 fp
        files_processed_delta := 1
        events := [Event.lockAcq fp, Event.lockRel fp] }
    else
      let r := runWaves oracle d (waves mb mt d)
      { result := RunResult.ret true
        data := some r.1
        locks := unlock_file lk1 fp
        files_processed_delta := 1
        events := Event.lockAcq fp :: (r.2 ++ [Event.lockRel fp]) }
  | ReadOutcome.exn _ =>
    { result := RunResult.ret false
      data := none
      locks := unlock_file lk1 fp
      files_processed_delta := 0
      events := [Event.lockAcq fp, Event.lockRel fp] }
  | ReadOutcome.interrupt m =>
    { result := RunResult.raised m
      data := none
      locks := unlock_file lk1 fp
      files_processed_delta := 0
      events := [Event.lockAcq fp, Event.lockRel fp] }

end V

/-- One pooled browser as held in `self.browsers`: the remaining-capacity
counter `tabs_available` and the free list `tabs` (tab handles modelled as
natural-number identities). -/
structure BrowserInfo where
  tabs_available : Nat
  tabs : List Nat
deriving DecidableEq, Repr

/-- `get_available_tab` scan, shared by ser.py (lines 211-218) and v.py
(lines 158-162): walk the browsers in order; at the first one with
`tabs_available > 0` and a nonempty free list, decrement the counter, pop
the head tab, and return the tab together with its browser index and the
updated browser list.  `none` when no browser qualifies. -/
def get_available_tab : List BrowserInfo → Option (Nat × Nat × List BrowserInfo)
  | [] => none
  | b :: rest =>
    if 0 < b.tabs_available ∧ b.tabs ≠ [] then
      match b.tabs with
      | [] => none
      | t :: ts => some (t, 0, { tabs_available := b.tabs_available - 1, tabs := ts } :: rest)
    else
      match get_available_tab rest with
      | none => none
      | some (t, i, rest1) => some (t, i + 1, b :: rest1)

/-- `release_tab` (ser.py lines 220-223, v.py lines 166-169): append the
tab back to its browser free list and increment the counter. -/
def release_tab (t : Nat) (i : Nat) (bs : List BrowserInfo) : List BrowserInfo :=
  updList i (fun b => { tabs_available := b.tabs_available + 1, tabs := b.tabs ++ [t] }) bs

/-- A pool-facing call without interleaved initialize/shutdown: one
acquisition attempt, or the release of the k-th currently checked-out
tab. -/
inductive PoolOp where
  | acquire
  | release (k : Nat)
deriving DecidableEq, Repr

/-- The whole intra-process pool: the browser list plus the tabs currently
checked out by in-flight tasks, each remembering its owning browser. -/
structure PoolState where
  browsers : List BrowserInfo
  checked_out : List (Nat × Nat)
deriving DecidableEq, Repr

/-- Effect of one pool call: a failed acquisition attempt leaves the pool
unchanged (the caller retries); a successful one moves the head tab of the
chosen browser into the checked-out set; a release moves a checked-out tab
back to its owning browser free list. -/
def poolStep (s : PoolState) : PoolOp → PoolState
  | PoolOp.acquire =>
    match get_available_tab s.browsers with
    | none => s
    | some (t, i, bs1) => { browsers := bs1, checked_out := (t, i) :: s.checked_out }
  | PoolOp.release k =>
    match s.checked_out.get? k with
    | none => s
    | some (t, i) =>
      { browsers := release_tab t i s.browsers
        checked_out := s.checked_out.eraseIdx k }

/-- Run a sequence of pool calls. -/
def runPool (s : PoolState) (ops : List PoolOp) : PoolState :=
  ops.foldl poolStep s

/-- `init_browsers` with every browser and tab construction succeeding:
`browser_count` browsers, each pre-populated with `capacity_per_browser`
distinct tabs and a full counter. -/
def initBrowsers (browser_count capacity_per_browser : Nat) : List BrowserInfo :=
  (List.range browser_count).map (fun j =>
    { tabs_available := capacity_per_browser
      tabs := (List.range capacity_per_browser).map (fun k => j * capacity_per_browser + k) })

/-- Freshly initialized pool: nothing checked out. -/
def initPool (browser_count capacity_per_browser : Nat) : PoolState :=
  { browsers := initBrowsers browser_count capacity_per_browser, checked_out := [] }

/-- All tabs sitting in free lists, in scan order. -/
def freeTabs (bs : List BrowserInfo) : List Nat :=
  (bs.map (fun b => b.tabs)).flatten

/-- Free tabs of the pool plus the identities of the checked-out tabs. -/
def allTabs (s : PoolState) : List Nat :=
  freeTabs s.browsers ++ s.checked_out.map (fun p => p.1)

/-- Some browser can serve a tab right now (the loop guard of the shared
`get_available_tab` scan). -/
def hasFreeTab (bs : List BrowserInfo) : Bool :=
  bs.any (fun b => decide (0 < b.tabs_available) && !b.tabs.isEmpty)

/-- The cooperative retry loop around the scan: v.py `get_available_tab`
sleeps 0.5s and rescans inside `while True`; ser.py
`process_single_episode` sleeps 1s and calls itself again on a `None`
scan.  The pool state seen at the n-th retry is `σ n`; `fuel` bounds the
retries observed. -/
def acquireLoop (σ : Nat → List BrowserInfo) : Nat → Nat → Option (Nat × Nat × List BrowserInfo)
  | 0, _ => none
  | fuel + 1, n =>
    match get_available_tab (σ n) with
    | some r => some r
    | none => acquireLoop σ fuel (n + 1)

/-- Decision taken by one iteration of the worker scan loop. -/
inductive ScanStep where
  | claim (f : String)
  | shutdown
deriving DecidableEq, Repr

/-- One iteration of `run_instance` (ser.py lines 536-546, v.py lines
432-441) and `worker_instance` (allanime.py lines 356-368): scan; if the
scan is empty, wait and rescan once; only when the rescan is empty too,
leave the loop; otherwise claim a file from whichever scan was nonempty
(`random.choice` in ser.py/v.py, the head in allanime.py, abstracted as
`pick`). -/
def run_instance_iteration (pick : List String → String)
    (scan1 scan2 : List String) : ScanStep :=
  if scan1.isEmpty then
    if scan2.isEmpty then ScanStep.shutdown
    else ScanStep.claim (pick scan2)
  else ScanStep.claim (pick scan1)

/-- The worker loop over a stream of scan-pair observations: `σ k` is the
pair (first scan, rescan) the k-th iteration would see.  Returns the index
of the iteration that shut down, or `none` if the fuel ran out while work
kept arriving. -/
def run_instance_loop (pick : List String → String)
    (σ : Nat → List String × List String) : Nat → Nat → Option Nat
  | 0, _ => none
  | fuel + 1, k =>
    match run_instance_iteration pick (σ k).1 (σ k).2 with
    | ScanStep.shutdown => some k
    | ScanStep.claim _ => run_instance_loop pick σ fuel (k + 1)

/-! ### Lock-store lemmas -/

theorem lookupLock_removeLock_self (s : LockStore) (f : String) :
    lookupLock (removeLock s f) f = none := by
  induction s with
  | nil => rfl
  | cons hd tl ih =>
    obtain ⟨g, m⟩ := hd
    by_cases hgf : g = f
    · simpa [removeLock, hgf] using ih
    · simpa [removeLock, lookupLock, hgf] using ih

theorem lookupLock_removeLock_ne (s : LockStore) (f g : String) (h : g ≠ f) :
    lookupLock (removeLock s f) g = lookupLock s g := by
  have hfg : ¬f = g := fun hc => h hc.symm
  induction s with
  | nil => rfl
  | cons hd tl ih =>
    obtain ⟨g1, m⟩ := hd
    by_cases h1 : g1 = f
    · subst h1
      simp [removeLock, lookupLock, hfg, ih]
    · by_cases h2 : g1 = g
      · subst h2
        simp [removeLock, lookupLock, h1]
      · simp [removeLock, lookupLock, h1, h2, ih]

theorem lookupLock_ifbp_ne (now : Nat) (s : LockStore) (f g : String) (h : g ≠ f) :
    lookupLock (is_file_being_processed now s f).2 g = lookupLock s g := by
  unfold is_file_being_processed
  cases hl : lookupLock s f with
  | none => rfl
  | some m =>
    by_cases hst : now - m > 600
    · simpa [hst] using lookupLock_removeLock_ne s f g h
    · simp [hst]

theorem lookupLock_scan_none (now : Nat) (files : List String) :
    ∀ (s : LockStore) (f : String), lookupLock s f = none →
      lookupLock (get_available_files now s files).2 f = none := by
  induction files with
  | nil => intro s f h; simpa [get_available_files] using h
  | cons g rest ih =>
    intro s f h
    simp only [get_available_files]
    apply ih
    by_cases hgf : g = f
    · subst hgf
      simp [is_file_being_processed, h]
    · rw [lookupLock_ifbp_ne now s g f (fun hc => hgf hc.symm)]
      exact h

theorem hasLiveLock_congr (now : Nat) (s1 s2 : LockStore) (f : String)
    (h : lookupLock s1 f = lookupLock s2 f) :
    hasLiveLock now s1 f = hasLiveLock now s2 f := by
  unfold hasLiveLock
  rw [h]

/-- Core availability lemma: a file is in the output of the scan exactly
when it is among the scanned files and holds no live (fresh) lock in the
store the scan started from. -/
theorem mem_get_available_files (now : Nat) (files : List String) :
    ∀ (s : LockStore) (f : String),
      f ∈ (get_available_files now s files).1 ↔
        f ∈ files ∧ hasLiveLock now s f = false := by
  induction files with
  | nil => intro s f; simp [get_available_files]
  | cons g rest ih =>
    intro s f
    by_cases hgf : f = g
    · subst hgf
      cases hl : lookupLock s f with
      | none =>
        simp [get_available_files, is_file_being_processed, hl, hasLiveLock]
      | some m =>
        by_cases hst : now - m > 600
        · simp [get_available_files, is_file_being_processed, hl, hst, hasLiveLock]
        · have hlive : hasLiveLock now s f = true := by
            simp [hasLiveLock, hl, hst]
          have hifbp : is_file_being_processed now s f = (true, s) := by
            simp [is_file_being_processed, hl, hst]
          simp [get_available_files, hifbp, ih s f, hlive]
    · have hlk := lookupLock_ifbp_ne now s g f hgf
      have hcg := hasLiveLock_congr now (is_file_being_processed now s g).2 s f hlk
      rcases hb : is_file_being_processed now s g with ⟨busy, s1⟩
      rw [hb] at hcg
      cases busy
      · simp [get_available_files, hb, ih s1 f, hcg, hgf]
      · simp [get_available_files, hb, ih s1 f, hcg, hgf]

/-- A stale marker of a scanned file is gone from the final store. -/
theorem stale_removed_by_scan (now : Nat) (files : List String) :
    ∀ (s : LockStore) (f : String) (m : Nat), f ∈ files →
      lookupLock s f = some m → now - m > 600 →
      lookupLock (get_available_files now s files).2 f = none := by
  induction files with
  | nil => intro s f m h; simp at h
  | cons g rest ih =>
    intro s f m hmem hl hst
    simp only [get_available_files]
    by_cases hgf : g = f
    · subst hgf
      apply lookupLock_scan_none
      simp [is_file_being_processed, hl, hst, lookupLock_removeLock_self]
    · rcases List.mem_cons.mp hmem with hc | hmem1
      · exact absurd hc.symm hgf
      · apply ih _ f m hmem1 _ hst
        rw [lookupLock_ifbp_ne now s g f (fun hc => hgf hc.symm)]
        exact hl

/-- C4: the availability scan reports exactly the identifiers with no live
lock; an identifier whose marker is older than 600 time-units is treated
as available and its marker is removed (already by the
`is_file_being_processed` call that reports it, hence before the
identifier is reported available); an identifier with a fresh marker is
never reported available. -/
theorem C4_availability_scan :
    ∀ (now : Nat) (s : LockStore) (files : List String) (f : String),
      (f ∈ (get_available_files now s files).1 ↔
        f ∈ files ∧ hasLiveLock now s f = false)
      ∧ (∀ m : Nat, lookupLock s f = some m → now - m > 600 →
          is_file_being_processed now s f = (false, removeLock s f)
          ∧ (f ∈ files → lookupLock (get_available_files now s files).2 f = none))
      ∧ (hasLiveLock now s f = true → f ∉ (get_available_files now s files).1) := by
  intro now s files f
  refine ⟨mem_get_available_files now files s f, ?_, ?_⟩
  · intro m hm hst
    refine ⟨by simp [is_file_being_processed, hm, hst], ?_⟩
    intro hmem
    exact stale_removed_by_scan now files s f m hmem hm hst
  · intro hlive hmem
    rcases (mem_get_available_files now files s f).mp hmem with ⟨_, hfalse⟩
    rw [hlive] at hfalse
    simp at hfalse

/-- Witness for C4 on a concrete store: at time 700, the marker of "a"
(mtime 0, stale) is removed by the scan, and "b" (mtime 650, fresh) is
not reported available. -/
theorem C4_availability_scan_witness :
    lookupLock (get_available_files 700 [("a", 0), ("b", 650)] ["a", "b", "c"]).2 "a" = none
    ∧ ("b" ∈ (get_available_files 700 [("a", 0), ("b", 650)] ["a", "b", "c"]).1 → False) := by
  constructor
  · exact ((C4_availability_scan 700 [("a", 0), ("b", 650)] ["a", "b", "c"] "a").2.1
      0 (by decide) (by decide)).2 (by decide)
  · intro hmem
    exact (C4_availability_scan 700 [("a", 0), ("b", 650)] ["a", "b", "c"] "b").2.2
      (by decide) hmem

/-- C6: on every exit path of `process_file` in both variants — normal
completion, caught exception, or an escaping interruption — the lock
marker of the processed file is gone from the store when the call
finishes, because the unlock sits in `finally`. -/
theorem C6_lock_released_on_every_exit :
    ∀ (oracle : Oracle) (ro : ReadOutcome) (fp inst : String) (now : Nat)
      (lk : LockStore) (gp : GlobalProgress) (mb mt : Nat),
      lookupLock (Ser.process_file oracle ro fp inst now lk gp).locks fp = none
      ∧ lookupLock (V.process_file mb mt oracle ro fp now lk).locks fp = none := by
  intro oracle ro fp inst now lk gp mb mt
  refine ⟨?_, ?_⟩
  · cases ro <;> simp [Ser.process_file, unlock_file, lookupLock_removeLock_self]
  · cases ro with
    | ok d =>
      by_cases h : pendingPositions d = [] <;>
        simp [V.process_file, h, unlock_file, lookupLock_removeLock_self]
    | exn m => simp [V.process_file, unlock_file, lookupLock_removeLock_self]
    | interrupt m => simp [V.process_file, unlock_file, lookupLock_removeLock_self]

/-- An iteration shuts the worker down exactly when both the scan and the
rescan were empty. -/
theorem run_instance_iteration_shutdown_iff (pick : List String → String)
    (s1 s2 : List String) :
    run_instance_iteration pick s1 s2 = ScanStep.shutdown ↔ s1 = [] ∧ s2 = [] := by
  rcases s1 with _ | ⟨a, as⟩ <;> rcases s2 with _ | ⟨b, bs⟩ <;>
    simp [run_instance_iteration]

/-- If the worker loop terminated at iteration `k`, the scans it saw
there were both empty. -/
theorem run_instance_loop_shutdown (pick : List String → String)
    (σ : Nat → List String × List String) :
    ∀ (fuel k0 k : Nat), run_instance_loop pick σ fuel k0 = some k →
      (σ k).1 = [] ∧ (σ k).2 = [] := by
  intro fuel
  induction fuel with
  | zero => intro k0 k h; simp [run_instance_loop] at h
  | succ n ih =>
    intro k0 k h
    simp only [run_instance_loop] at h
    rcases hit : run_instance_iteration pick (σ k0).1 (σ k0).2 with f | _
    · rw [hit] at h
      exact ih _ _ h
    · rw [hit] at h
      have hk : k0 = k := by
        simpa using h
      subst hk
      exact (run_instance_iteration_shutdown_iff pick (σ k0).1 (σ k0).2).mp hit

/-- C9: the worker instance leaves its loop only when a scan found zero
available items and the single rescan found zero again; whenever either
scan is nonempty the iteration claims a file from it and the loop
continues. -/
theorem C9_terminate_only_after_double_empty :
    ∀ (pick : List String → String) (σ : Nat → List String × List String)
      (fuel k0 k : Nat) (s1 s2 : List String),
      (run_instance_loop pick σ fuel k0 = some k → (σ k).1 = [] ∧ (σ k).2 = [])
      ∧ (run_instance_iteration pick s1 s2 = ScanStep.shutdown ↔ s1 = [] ∧ s2 = [])
      ∧ (s1 ≠ [] → run_instance_iteration pick s1 s2 = ScanStep.claim (pick s1))
      ∧ (s1 = [] → s2 ≠ [] → run_instance_iteration pick s1 s2 = ScanStep.claim (pick s2)) := by
  intro pick σ fuel k0 k s1 s2
  refine ⟨run_instance_loop_shutdown pick σ fuel k0 k,
    run_instance_iteration_shutdown_iff pick s1 s2, ?_, ?_⟩
  · intro h1
    rcases s1 with _ | ⟨a, as⟩
    · exact absurd rfl h1
    · simp [run_instance_iteration]
  · intro h1 h2
    subst h1
    rcases s2 with _ | ⟨b, bs⟩
    · exact absurd rfl h2
    · simp [run_instance_iteration]

/-- `random.choice` stand-in for witnesses. -/
def pickHead (l : List String) : String := l.headD ""

/-- A scan stream that always reports an empty backlog. -/
def emptyScans : Nat → List String × List String := fun _ => ([], [])

/-- Witness for C9: with an always-empty backlog the loop terminates at
its first iteration after the double check, and a nonempty first scan
makes the iteration claim a file. -/
theorem C9_terminate_only_after_double_empty_witness :
    ((emptyScans 0).1 = [] ∧ (emptyScans 0).2 = [])
    ∧ run_instance_iteration pickHead ["x"] ["y"] = ScanStep.claim (pickHead ["x"]) := by
  constructor
  · exact (C9_terminate_only_after_double_empty pickHead emptyScans 1 0 0 [] []).1 (by decide)
  · exact (C9_terminate_only_after_double_empty pickHead emptyScans 1 0 0 ["x"] ["y"]).2.2.1
      (by decide)

/-- Deleting an absent key from the in-flight dict is a no-op. -/
theorem removeKey_eq_of_not_mem (P : List (String × String)) (f : String)
    (h : ∀ pr ∈ P, pr.1 ≠ f) : removeKey P f = P := by
  induction P with
  | nil => rfl
  | cons hd tl ih =>
    obtain ⟨g, i⟩ := hd
    have hg : g ≠ f := h (g, i) (List.mem_cons_self _ _)
    simp only [removeKey, if_neg hg]
    rw [ih (fun pr hpr => h pr (List.mem_cons_of_mem _ hpr))]

/-- A constant collaborator used by witnesses where the oracle is
irrelevant. -/
def oracleConst : Oracle := fun _ => TaskOutcome.res none

/-- C10: when an exception escapes the body of ser.py `process_file`, the
error path still marks the file completed before returning `False`: it
lands in the completed set, leaves the in-flight map, and — relative to
the state before the call — the remaining count drops by one, even though
nothing was extracted or written. -/
theorem C10_error_path_marks_completed :
    ∀ (oracle : Oracle) (fp inst m : String) (now : Nat) (lk : LockStore)
      (gp : GlobalProgress),
      fp ∉ gp.completed_files →
      (∀ pr ∈ gp.currently_processing, pr.1 ≠ fp) →
      gp.completed_files.length + gp.currently_processing.length < gp.total_files →
      (Ser.process_file oracle (ReadOutcome.exn m) fp inst now lk gp).result
          = RunResult.ret false
      ∧ fp ∈ (Ser.process_file oracle (ReadOutcome.exn m) fp inst now lk gp).progress.completed_files
      ∧ (∀ pr ∈ (Ser.process_file oracle (ReadOutcome.exn m) fp inst now lk gp).progress.currently_processing,
          pr.1 ≠ fp)
      ∧ remainingFiles (Ser.process_file oracle (ReadOutcome.exn m) fp inst now lk gp).progress + 1
          = remainingFiles gp
      ∧ persistedDatas (Ser.process_file oracle (ReadOutcome.exn m) fp inst now lk gp).events = []
      ∧ extractUrls (Ser.process_file oracle (ReadOutcome.exn m) fp inst now lk gp).events = [] := by
  intro oracle fp inst m now lk gp h1 h2 h3
  have hrk : removeKey gp.currently_processing fp = gp.currently_processing :=
    removeKey_eq_of_not_mem _ _ h2
  have hprog :
      (Ser.process_file oracle (ReadOutcome.exn m) fp inst now lk gp).progress
        = { completed_files := fp :: gp.completed_files
            currently_processing := gp.currently_processing
            total_files := gp.total_files } := by
    simp [Ser.process_file, mark_file_started, mark_file_completed, insertFile,
      removeKey, hrk, h1]
  refine ⟨rfl, ?_, ?_, ?_, rfl, rfl⟩
  · rw [hprog]
    exact List.mem_cons_self _ _
  · rw [hprog]
    exact h2
  · rw [hprog]
    simp only [remainingFiles, List.length_cons]
    omega

/-- Witness for C10 at a one-file backlog: the failed run reports
`False`, yet the file counts as completed and remaining drops to zero. -/
theorem C10_error_path_marks_completed_witness :
    (Ser.process_file oracleConst (ReadOutcome.exn "boom") "f" "I" 0 []
        ⟨[], [], 1⟩).result = RunResult.ret false
    ∧ "f" ∈ (Ser.process_file oracleConst (ReadOutcome.exn "boom") "f" "I" 0 []
        ⟨[], [], 1⟩).progress.completed_files
    ∧ remainingFiles (Ser.process_file oracleConst (ReadOutcome.exn "boom") "f" "I" 0 []
        ⟨[], [], 1⟩).progress + 1 = remainingFiles ⟨[], [], 1⟩ := by
  have h := C10_error_path_marks_completed oracleConst "f" "I" "boom" 0 []
    ⟨[], [], 1⟩ (by simp) (by simp) (by decide)
  exact ⟨h.1, h.2.1, h.2.2.2.1⟩

/-! ### Tab-pool lemmas -/

theorem updList_length {α : Type} : ∀ (n : Nat) (f : α → α) (l : List α),
    (updList n f l).length = l.length := by
  intro n f l
  induction l generalizing n with
  | nil => cases n <;> rfl
  | cons x xs ih =>
    cases n with
    | zero => rfl
    | succ k => simp [updList, ih]

theorem freeTabs_append (a b : List BrowserInfo) :
    freeTabs (a ++ b) = freeTabs a ++ freeTabs b := by
  simp [freeTabs]

theorem get_perm_cons_eraseIdx {α : Type} :
    ∀ (l : List α) (k : Nat) (x : α), l.get? k = some x →
      l.Perm (x :: l.eraseIdx k) := by
  intro l
  induction l with
  | nil => intro k x h; simp at h
  | cons y ys ih =>
    intro k x h
    cases k with
    | zero =>
      simp only [List.get?] at h
      obtain rfl : y = x := by simpa using h
      simp [List.eraseIdx]
    | succ k1 =>
      simp only [List.get?] at h
      have hp := ih k1 x h
      show List.Perm (y :: ys) (x :: (y :: ys.eraseIdx k1))
      exact List.Perm.trans (List.Perm.cons y hp) (List.Perm.swap x y _)

theorem get_available_tab_spec :
    ∀ (bs : List BrowserInfo) (t i : Nat) (bs1 : List BrowserInfo),
      get_available_tab bs = some (t, i, bs1) →
      i < bs.length ∧ bs1.length = bs.length
      ∧ (∃ b0, bs.get? i = some b0 ∧ b0.tabs.head? = some t)
      ∧ (freeTabs bs).Perm (t :: freeTabs bs1) := by
  intro bs
  induction bs with
  | nil => intro t i bs1 h; simp [get_available_tab] at h
  | cons b rest ih =>
    intro t i bs1 h
    by_cases hc : 0 < b.tabs_available ∧ b.tabs ≠ []
    · rw [get_available_tab, if_pos hc] at h
      cases hbt : b.tabs with
      | nil => exact absurd hbt hc.2
      | cons t0 ts =>
        rw [hbt] at h
        obtain ⟨rfl, rfl, rfl⟩ : t0 = t ∧ 0 = i ∧
            ({ tabs_available := b.tabs_available - 1, tabs := ts } : BrowserInfo) :: rest = bs1 := by
          simpa using h
        refine ⟨Nat.succ_pos _, rfl, ⟨b, rfl, by rw [hbt]; rfl⟩, ?_⟩
        simp [freeTabs, hbt]
    · rw [get_available_tab, if_neg hc] at h
      cases hr : get_available_tab rest with
      | none => rw [hr] at h; simp at h
      | some r =>
        obtain ⟨t0, i0, rest1⟩ := r
        rw [hr] at h
        obtain ⟨rfl, rfl, rfl⟩ : t0 = t ∧ i0 + 1 = i ∧ b :: rest1 = bs1 := by
          simpa using h
        obtain ⟨h1, h2, ⟨b0, h3, h4⟩, h5⟩ := ih t0 i0 rest1 hr
        refine ⟨by simpa using h1, by simpa using h2, ⟨b0, by simpa using h3, h4⟩, ?_⟩
        have e1 : freeTabs (b :: rest) = b.tabs ++ freeTabs rest := by simp [freeTabs]
        have e2 : freeTabs (b :: rest1) = b.tabs ++ freeTabs rest1 := by simp [freeTabs]
        rw [e1, e2]
        exact List.Perm.trans (List.Perm.append_left b.tabs h5) List.perm_middle

theorem release_tab_perm :
    ∀ (bs : List BrowserInfo) (t i : Nat), i < bs.length →
      (freeTabs (release_tab t i bs)).Perm (t :: freeTabs bs) := by
  intro bs
  induction bs with
  | nil => intro t i h; simp at h
  | cons b rest ih =>
    intro t i h
    cases i with
    | zero =>
      have e1 : freeTabs (release_tab t 0 (b :: rest)) = b.tabs ++ (t :: freeTabs rest) := by
        simp [release_tab, updList, freeTabs]
      have e2 : freeTabs (b :: rest) = b.tabs ++ freeTabs rest := by simp [freeTabs]
      rw [e1, e2]
      exact List.perm_middle
    | succ i1 =>
      have h1 : i1 < rest.length := by simpa using h
      have e1 : freeTabs (release_tab t (i1 + 1) (b :: rest))
          = b.tabs ++ freeTabs (release_tab t i1 rest) := by
        simp [release_tab, updList, freeTabs]
      have e2 : freeTabs (b :: rest) = b.tabs ++ freeTabs rest := by simp [freeTabs]
      rw [e1, e2]
      exact List.Perm.trans (List.Perm.append_left b.tabs (ih t i1 h1)) List.perm_middle

theorem release_tab_hasFree :
    ∀ (bs : List BrowserInfo) (t i : Nat), i < bs.length →
      hasFreeTab (release_tab t i bs) = true := by
  intro bs
  induction bs with
  | nil => intro t i h; simp at h
  | cons b rest ih =>
    intro t i h
    cases i with
    | zero => simp [release_tab, updList, hasFreeTab]
    | succ i1 =>
      have h1 : i1 < rest.length := by simpa using h
      have := ih t i1 h1
      simp [release_tab, updList, hasFreeTab] at this ⊢
      exact Or.inr this

theorem get_available_tab_isSome_iff :
    ∀ (bs : List BrowserInfo), (get_available_tab bs).isSome = hasFreeTab bs := by
  intro bs
  induction bs with
  | nil => rfl
  | cons b rest ih =>
    by_cases hc : 0 < b.tabs_available ∧ b.tabs ≠ []
    · rw [get_available_tab, if_pos hc]
      cases hbt : b.tabs with
      | nil => exact absurd hbt hc.2
      | cons t0 ts =>
        simp [hasFreeTab, hc.1, hbt]
    · rw [get_available_tab, if_neg hc]
      have hhead : (decide (0 < b.tabs_available) && !b.tabs.isEmpty) = false := by
        rcases not_and_or.mp hc with h | h
        · simp [h]
        · simp [not_not.mp h]
      cases hr : get_available_tab rest with
      | none =>
        rw [hr] at ih
        simp [hasFreeTab, hhead]
        simpa [hasFreeTab] using ih.symm
      | some r =>
        rw [hr] at ih
        simp [hasFreeTab, hhead]
        simpa [hasFreeTab] using ih.symm

/-- Invariant threaded through pool operations: the browser count is
stable, every checked-out tab remembers a valid browser index, and the
combined bag of tabs (free plus checked out) is a permutation of the
initial one. -/
def PoolInv (n : Nat) (init : List Nat) (s : PoolState) : Prop :=
  s.browsers.length = n
  ∧ (∀ pr ∈ s.checked_out, pr.2 < n)
  ∧ (allTabs s).Perm init

theorem poolStep_inv (n : Nat) (init : List Nat) (s : PoolState) (op : PoolOp)
    (h : PoolInv n init s) : PoolInv n init (poolStep s op) := by
  obtain ⟨hlen, hco, hperm⟩ := h
  cases op with
  | acquire =>
    cases hg : get_available_tab s.browsers with
    | none => simpa [poolStep, hg] using ⟨hlen, hco, hperm⟩
    | some r =>
      obtain ⟨t, i, bs1⟩ := r
      obtain ⟨hi, hlen1, _, hfree⟩ := get_available_tab_spec s.browsers t i bs1 hg
      refine ⟨?_, ?_, ?_⟩
      · simpa [poolStep, hg] using hlen1.trans hlen
      · intro pr hpr
        simp only [poolStep, hg] at hpr
        rcases List.mem_cons.mp hpr with rfl | hpr1
        · simpa [hlen] using hi
        · exact hco pr hpr1
      · simp only [poolStep, hg, allTabs, List.map_cons]
        have step1 : List.Perm (freeTabs bs1 ++ t :: s.checked_out.map (fun p => p.1))
            (t :: (freeTabs bs1 ++ s.checked_out.map (fun p => p.1))) := List.perm_middle
        have step2 : List.Perm (freeTabs s.browsers ++ s.checked_out.map (fun p => p.1))
            (t :: (freeTabs bs1 ++ s.checked_out.map (fun p => p.1))) := by
          have := List.Perm.append_right (s.checked_out.map (fun p => p.1)) hfree
          simpa using this
        exact (step1.trans step2.symm).trans hperm
  | release k =>
    cases hk : s.checked_out[k]? with
    | none => simpa [poolStep, hk] using ⟨hlen, hco, hperm⟩
    | some pr =>
      obtain ⟨t, i⟩ := pr
      have hk2 : s.checked_out.get? k = some (t, i) := by
        rw [List.get?_eq_getElem?]; exact hk
      have hmem : (t, i) ∈ s.checked_out := List.get?_mem hk2
      have hin : i < n := hco (t, i) hmem
      have hperm0 : List.Perm s.checked_out ((t, i) :: s.checked_out.eraseIdx k) :=
        get_perm_cons_eraseIdx s.checked_out k (t, i) hk2
      refine ⟨?_, ?_, ?_⟩
      · simpa [poolStep, hk, release_tab] using (updList_length i _ s.browsers).trans hlen
      · intro pr1 hpr1
        simp only [poolStep, hk2] at hpr1
        apply hco
        exact (hperm0.symm.mem_iff).mp (List.mem_cons_of_mem _ hpr1)
      · simp only [poolStep, hk2, allTabs]
        have hrel : List.Perm (freeTabs (release_tab t i s.browsers))
            (t :: freeTabs s.browsers) :=
          release_tab_perm s.browsers t i (by rw [hlen]; exact hin)
        have hmap : List.Perm (s.checked_out.map (fun p => p.1))
            (t :: (s.checked_out.eraseIdx k).map (fun p => p.1)) := by
          simpa using hperm0.map (fun p => p.1)
        have left1 : List.Perm
            (freeTabs (release_tab t i s.browsers) ++ (s.checked_out.eraseIdx k).map (fun p => p.1))
            (t :: (freeTabs s.browsers ++ (s.checked_out.eraseIdx k).map (fun p => p.1))) := by
          have := List.Perm.append_right ((s.checked_out.eraseIdx k).map (fun p => p.1)) hrel
          simpa using this
        have right1 : List.Perm
            (freeTabs s.browsers ++ s.checked_out.map (fun p => p.1))
            (t :: (freeTabs s.browsers ++ (s.checked_out.eraseIdx k).map (fun p => p.1))) := by
          have h1 := List.Perm.append_left (freeTabs s.browsers) hmap
          exact h1.trans List.perm_middle
        exact (left1.trans right1.symm).trans hperm

theorem runPool_inv (n : Nat) (init : List Nat) :
    ∀ (ops : List PoolOp) (s : PoolState), PoolInv n init s →
      PoolInv n init (runPool s ops) := by
  intro ops
  induction ops with
  | nil => intro s h; exact h
  | cons op rest ih =>
    intro s h
    exact ih (poolStep s op) (poolStep_inv n init s op h)

theorem freeTabs_initBrowsers_succ (b c : Nat) :
    freeTabs (initBrowsers (b + 1) c)
      = freeTabs (initBrowsers b c) ++ (List.range c).map (fun k => b * c + k) := by
  simp [initBrowsers, freeTabs, List.range_succ]

theorem freeTabs_initBrowsers_length (c : Nat) :
    ∀ b, (freeTabs (initBrowsers b c)).length = b * c := by
  intro b
  induction b with
  | zero => simp [initBrowsers, freeTabs]
  | succ b1 ih =>
    rw [freeTabs_initBrowsers_succ, List.length_append, ih]
    simp [Nat.succ_mul]

theorem mem_freeTabs_initBrowsers (c : Nat) :
    ∀ b x, x ∈ freeTabs (initBrowsers b c) → x < b * c := by
  intro b
  induction b with
  | zero => intro x hx; simp [initBrowsers, freeTabs] at hx
  | succ b1 ih =>
    intro x hx
    rw [freeTabs_initBrowsers_succ] at hx
    rcases List.mem_append.mp hx with h1 | h1
    · have := ih x h1
      have hle : b1 * c ≤ (b1 + 1) * c := by
        rw [Nat.succ_mul]; omega
      omega
    · rcases List.mem_map.mp h1 with ⟨k, hk, rfl⟩
      have hkc : k < c := List.mem_range.mp hk
      rw [Nat.succ_mul]
      omega

theorem freeTabs_initBrowsers_nodup (c : Nat) :
    ∀ b, (freeTabs (initBrowsers b c)).Nodup := by
  intro b
  induction b with
  | zero => simp [initBrowsers, freeTabs]
  | succ b1 ih =>
    rw [freeTabs_initBrowsers_succ]
    refine List.Nodup.append ih ?_ ?_
    · refine List.Nodup.map ?_ (List.nodup_range c)
      intro a1 a2 h
      have h2 : b1 * c + a1 = b1 * c + a2 := h
      omega
    · intro x hx1 hx2
      have h1 := mem_freeTabs_initBrowsers c b1 x hx1
      rcases List.mem_map.mp hx2 with ⟨k, hk, hxe⟩
      have hxe2 : b1 * c + k = x := hxe
      omega

/-- C2: for any sequence of acquire/release calls without interleaved
initialize/shutdown, the tabs in the free lists plus the tabs checked out
add up to the initial capacity `browsers * tabs_per_browser`, and the
combined bag of tab identities has no duplicate: no tab sits in a free
list while checked out, and no tab is issued twice. -/
theorem C2_pool_conservation :
    ∀ (b c : Nat) (ops : List PoolOp),
      (freeTabs (runPool (initPool b c) ops).browsers).length
          + (runPool (initPool b c) ops).checked_out.length = b * c
      ∧ (allTabs (runPool (initPool b c) ops)).Nodup := by
  intro b c ops
  have hstart : PoolInv b (freeTabs (initBrowsers b c)) (initPool b c) := by
    refine ⟨by simp [initPool, initBrowsers], by simp [initPool], ?_⟩
    simp [initPool, allTabs]
  have hinv := runPool_inv b (freeTabs (initBrowsers b c)) ops (initPool b c) hstart
  obtain ⟨hlen, hco, hperm⟩ := hinv
  constructor
  · have hl := hperm.length_eq
    rw [freeTabs_initBrowsers_length c b] at hl
    simpa [allTabs] using hl
  · exact (hperm.nodup_iff).mpr (freeTabs_initBrowsers_nodup c b)

/-- If the pool observed at retry `k0 + j` has a free tab, the cooperative
retry loop started at `k0` with `j + 1` attempts of fuel returns one. -/
theorem acquireLoop_succeeds (σ : Nat → List BrowserInfo) :
    ∀ (j k0 : Nat), hasFreeTab (σ (k0 + j)) = true →
      (acquireLoop σ (j + 1) k0).isSome = true := by
  intro j
  induction j with
  | zero =>
    intro k0 h
    have h2 : (get_available_tab (σ k0)).isSome = true := by
      rw [get_available_tab_isSome_iff]
      simpa using h
    cases hg : get_available_tab (σ k0) with
    | none => rw [hg] at h2; simp at h2
    | some r => simp [acquireLoop, hg]
  | succ j1 ih =>
    intro k0 h
    cases hg : get_available_tab (σ k0) with
    | none =>
      have he : k0 + 1 + j1 = k0 + (j1 + 1) := by omega
      have := ih (k0 + 1) (by rw [he]; exact h)
      simpa [acquireLoop, hg] using this
    | some r => simp [acquireLoop, hg]

/-- C7: one scan of `get_available_tab` succeeds exactly when some browser
has spare capacity and a nonempty free list, and the tab it returns is the
head of the free list of the browser it is reported with; a release always
re-enqueues, leaving the pool with a free tab; hence the cooperative retry
loop (v.py `get_available_tab`, ser.py `process_single_episode`) returns a
tab as soon as any retry observes a free tab. -/
theorem C7_acquisition_eventually_returns :
    ∀ (bs : List BrowserInfo) (t i : Nat) (bs1 : List BrowserInfo)
      (σ : Nat → List BrowserInfo) (k : Nat),
      ((get_available_tab bs).isSome = hasFreeTab bs)
      ∧ (get_available_tab bs = some (t, i, bs1) →
          ∃ b0, bs.get? i = some b0 ∧ b0.tabs.head? = some t)
      ∧ (∀ (tb ib : Nat) (bsx : List BrowserInfo), ib < bsx.length →
          hasFreeTab (release_tab tb ib bsx) = true)
      ∧ (hasFreeTab (σ k) = true → (acquireLoop σ (k + 1) 0).isSome = true) := by
  intro bs t i bs1 σ k
  refine ⟨get_available_tab_isSome_iff bs, ?_, ?_, ?_⟩
  · intro h
    obtain ⟨_, _, hb0, _⟩ := get_available_tab_spec bs t i bs1 h
    exact hb0
  · intro tb ib bsx h
    exact release_tab_hasFree bsx tb ib h
  · intro h
    exact acquireLoop_succeeds σ k 0 (by simpa using h)

/-- A pool trace for the C7 witness: the first retry sees an exhausted
browser, the second sees a tab returned by a release. -/
def tightPoolTrace : Nat → List BrowserInfo :=
  fun n => if n = 0 then [{ tabs_available := 0, tabs := [] }]
           else [{ tabs_available := 1, tabs := [7] }]

/-- Witness for C7: the retry loop succeeds on its second attempt once the
tab is back, and releasing tab 7 into an exhausted one-browser pool leaves
the pool with a free tab. -/
theorem C7_acquisition_eventually_returns_witness :
    (acquireLoop tightPoolTrace 2 0).isSome = true
    ∧ hasFreeTab (release_tab 7 0 [{ tabs_available := 0, tabs := [] }]) = true := by
  constructor
  · exact (C7_acquisition_eventually_returns [] 0 0 [] tightPoolTrace 1).2.2.2 (by decide)
  · exact (C7_acquisition_eventually_returns [] 0 0 [] tightPoolTrace 1).2.2.1 7 0
      [{ tabs_available := 0, tabs := [] }] (by decide)

/-! ### Batch-bookkeeping lemmas -/

theorem failReason_isNone_iff (tr : Except String (Option String)) :
    (failReason tr).isNone = truthy (recordedResult tr) := by
  cases tr with
  | error m => simp [failReason, recordedResult, truthy]
  | ok r =>
    by_cases h : truthy r = true
    · simp [failReason, recordedResult, h]
    · have h2 : truthy r = false := by
        cases hv : truthy r
        · rfl
        · exact absurd hv h
      simp [failReason, recordedResult, h2]

theorem flatten_map_option {α β : Type} (g : α → Option β) :
    ∀ l : List α, (l.map (fun a => (g a).toList)).flatten = l.filterMap g := by
  intro l
  induction l with
  | nil => rfl
  | cons a rest ih =>
    cases h : g a <;> simp [List.filterMap_cons, h, ih]

theorem failLogs_append (a b : List Event) :
    failLogs (a ++ b) = failLogs a ++ failLogs b :=
  List.filterMap_append a b _

theorem extractUrls_append (a b : List Event) :
    extractUrls (a ++ b) = extractUrls a ++ extractUrls b :=
  List.filterMap_append a b _

theorem persistedDatas_append (a b : List Event) :
    persistedDatas (a ++ b) = persistedDatas a ++ persistedDatas b :=
  List.filterMap_append a b _

theorem failLogs_flatten (ls : List (List Event)) :
    failLogs ls.flatten = (ls.map failLogs).flatten := by
  induction ls with
  | nil => rfl
  | cons a rest ih => simp [failLogs_append, ih]

theorem extractUrls_flatten (ls : List (List Event)) :
    extractUrls ls.flatten = (ls.map extractUrls).flatten := by
  induction ls with
  | nil => rfl
  | cons a rest ih => simp [extractUrls_append, ih]

theorem persistedDatas_flatten (ls : List (List Event)) :
    persistedDatas ls.flatten = (ls.map persistedDatas).flatten := by
  induction ls with
  | nil => rfl
  | cons a rest ih => simp [persistedDatas_append, ih]

theorem failLogs_runSingleEpisode (oracle : Oracle) (ep : Episode) :
    failLogs (runSingleEpisode oracle ep).2 = [] := by
  by_cases h : ep.url.isEmpty <;>
    simp [runSingleEpisode, h, failLogs]

theorem persistedDatas_runSingleEpisode (oracle : Oracle) (ep : Episode) :
    persistedDatas (runSingleEpisode oracle ep).2 = [] := by
  by_cases h : ep.url.isEmpty <;>
    simp [runSingleEpisode, h, persistedDatas]

theorem extractUrls_runSingleEpisode (oracle : Oracle) (ep : Episode) :
    extractUrls (runSingleEpisode oracle ep).2
      = ((if ep.url.isEmpty then none else some ep.url) : Option String).toList := by
  by_cases h : ep.url.isEmpty <;>
    simp [runSingleEpisode, h, extractUrls]

theorem failLogs_book_entry (ep : Episode) (tr : Except String (Option String)) :
    failLogs (Ser.book_entry ep tr).2.2
      = ((failReason tr).map (fun m => (ep.url, m))).toList := by
  cases h : failReason tr <;> simp [Ser.book_entry, h, failLogs]

theorem extractUrls_book_entry (ep : Episode) (tr : Except String (Option String)) :
    extractUrls (Ser.book_entry ep tr).2.2 = [] := by
  cases h : failReason tr <;> simp [Ser.book_entry, h, extractUrls]

theorem persistedDatas_book_entry (ep : Episode) (tr : Except String (Option String)) :
    persistedDatas (Ser.book_entry ep tr).2.2 = [] := by
  cases h : failReason tr <;> simp [Ser.book_entry, h, persistedDatas]

theorem flatten_map_nil {α β : Type} (l : List α) :
    (l.map (fun _ => ([] : List β))).flatten = [] := by
  induction l with
  | nil => rfl
  | cons a rest ih => simp

theorem ser_batch_updated (oracle : Oracle) (batch : List Episode) :
    (Ser.process_episode_batch oracle batch).updated
      = batch.map (fun ep =>
          { ep with iframe_url := recordedResult (runSingleEpisode oracle ep).1 }) := by
  simp only [Ser.process_episode_batch, List.map_map]
  exact List.map_congr_left (fun ep _ => rfl)

theorem ser_batch_failLogs (oracle : Oracle) (batch : List Episode) :
    failLogs (Ser.process_episode_batch oracle batch).events
      = batch.filterMap (fun ep =>
          (failReason (runSingleEpisode oracle ep).1).map (fun m => (ep.url, m))) := by
  simp only [Ser.process_episode_batch, failLogs_append, failLogs_flatten, List.map_map]
  have h1 : (batch.map (failLogs ∘ fun ep => (runSingleEpisode oracle ep).2)).flatten = [] := by
    rw [show (failLogs ∘ fun ep => (runSingleEpisode oracle ep).2)
        = fun _ : Episode => ([] : List (String × String)) from
      funext (fun ep => failLogs_runSingleEpisode oracle ep)]
    exact flatten_map_nil batch
  rw [h1, List.nil_append]
  rw [show (failLogs ∘ (fun en : Episode × Bool × List Event => en.2.2) ∘
      fun ep => Ser.book_entry ep (runSingleEpisode oracle ep).1)
      = fun ep => ((failReason (runSingleEpisode oracle ep).1).map
          (fun m => (ep.url, m))).toList from
    funext (fun ep => failLogs_book_entry ep (runSingleEpisode oracle ep).1)]
  exact flatten_map_option _ batch

theorem ser_batch_extractUrls (oracle : Oracle) (batch : List Episode) :
    extractUrls (Ser.process_episode_batch oracle batch).events
      = batch.filterMap (fun ep => if ep.url.isEmpty then none else some ep.url) := by
  simp only [Ser.process_episode_batch, extractUrls_append, extractUrls_flatten, List.map_map]
  have h2 : (batch.map (extractUrls ∘ (fun en : Episode × Bool × List Event => en.2.2) ∘
      fun ep => Ser.book_entry ep (runSingleEpisode oracle ep).1)).flatten = [] := by
    rw [show (extractUrls ∘ (fun en : Episode × Bool × List Event => en.2.2) ∘
        fun ep => Ser.book_entry ep (runSingleEpisode oracle ep).1)
        = fun _ : Episode => ([] : List String) from
      funext (fun ep => extractUrls_book_entry ep (runSingleEpisode oracle ep).1)]
    exact flatten_map_nil batch
  rw [h2, List.append_nil]
  rw [show (extractUrls ∘ fun ep => (runSingleEpisode oracle ep).2)
      = fun ep : Episode =>
          ((if ep.url.isEmpty then none else some ep.url) : Option String).toList from
    funext (fun ep => extractUrls_runSingleEpisode oracle ep)]
  exact flatten_map_option _ batch

theorem ser_batch_persistedDatas (oracle : Oracle) (batch : List Episode) :
    persistedDatas (Ser.process_episode_batch oracle batch).events = [] := by
  simp only [Ser.process_episode_batch, persistedDatas_append, persistedDatas_flatten,
    List.map_map]
  have h1 : (batch.map (persistedDatas ∘ fun ep => (runSingleEpisode oracle ep).2)).flatten
      = [] := by
    rw [show (persistedDatas ∘ fun ep => (runSingleEpisode oracle ep).2)
        = fun _ : Episode => ([] : List WorkData) from
      funext (fun ep => persistedDatas_runSingleEpisode oracle ep)]
    exact flatten_map_nil batch
  have h2 : (batch.map (persistedDatas ∘ (fun en : Episode × Bool × List Event => en.2.2) ∘
      fun ep => Ser.book_entry ep (runSingleEpisode oracle ep).1)).flatten = [] := by
    rw [show (persistedDatas ∘ (fun en : Episode × Bool × List Event => en.2.2) ∘
        fun ep => Ser.book_entry ep (runSingleEpisode oracle ep).1)
        = fun _ : Episode => ([] : List WorkData) from
      funext (fun ep => persistedDatas_book_entry ep (runSingleEpisode oracle ep).1)]
    exact flatten_map_nil batch
  rw [h1, h2]
  rfl

theorem ser_batch_errors (oracle : Oracle) (batch : List Episode) :
    (Ser.process_episode_batch oracle batch).errors_in_batch
      = (batch.filter (fun ep => (failReason (runSingleEpisode oracle ep).1).isSome)).length := by
  simp only [Ser.process_episode_batch, List.filter_map, List.length_map]
  congr 1
  apply List.filter_congr
  intro ep _
  cases h : failReason (runSingleEpisode oracle ep).1 <;>
    simp [Function.comp, Ser.book_entry, h]

theorem ser_batch_processed (oracle : Oracle) (batch : List Episode) :
    (Ser.process_episode_batch oracle batch).processed_in_batch
      = (batch.filter (fun ep => (failReason (runSingleEpisode oracle ep).1).isNone)).length := by
  simp only [Ser.process_episode_batch, List.filter_map, List.length_map]
  rfl

theorem v_batch_updated (oracle : Oracle) (batch : List Episode) :
    (V.process_episode_batch oracle batch).updated
      = batch.map (fun ep =>
          { ep with iframe_url := recordedResult (runSingleEpisode oracle ep).1 }) := by
  simp only [V.process_episode_batch, List.map_map]
  exact List.map_congr_left (fun ep _ => rfl)

theorem v_batch_failLogs (oracle : Oracle) (batch : List Episode) :
    failLogs (V.process_episode_batch oracle batch).events = [] := by
  simp only [V.process_episode_batch, failLogs_flatten, List.map_map]
  rw [show (failLogs ∘ fun ep => (runSingleEpisode oracle ep).2)
      = fun _ : Episode => ([] : List (String × String)) from
    funext (fun ep => failLogs_runSingleEpisode oracle ep)]
  exact flatten_map_nil batch

theorem v_batch_errors (oracle : Oracle) (batch : List Episode) :
    (V.process_episode_batch oracle batch).errors_in_batch
      = (batch.filter (fun ep => (failReason (runSingleEpisode oracle ep).1).isSome)).length := by
  simp only [V.process_episode_batch, List.filter_map, List.length_map]
  congr 1
  apply List.filter_congr
  intro ep _
  cases h : failReason (runSingleEpisode oracle ep).1 <;>
    simp [Function.comp, V.book_entry, h]

theorem v_batch_persistedDatas (oracle : Oracle) (batch : List Episode) :
    persistedDatas (V.process_episode_batch oracle batch).events = [] := by
  simp only [V.process_episode_batch, persistedDatas_flatten, List.map_map]
  rw [show (persistedDatas ∘ fun ep => (runSingleEpisode oracle ep).2)
      = fun _ : Episode => ([] : List WorkData) from
    funext (fun ep => persistedDatas_runSingleEpisode oracle ep)]
  exact flatten_map_nil batch

/-- C8 (amended): in the ser.py variant every sub-item whose task raised
or yielded no usable value is recorded with a null `iframe_url`, produces
exactly one failure-log record carrying the captured reason, is counted
as an error (each sub-item is attempted exactly once per pass — no inline
retry), the call returns normally, and every sub-item ends with a truthy
result or a failure record; the v.py variant records the null and counts
the error identically but emits no failure records at all. -/
theorem C8_failure_bookkeeping :
    ∀ (oracle : Oracle) (batch : List Episode),
      (Ser.process_episode_batch oracle batch).updated
          = batch.map (fun ep =>
              { ep with iframe_url := recordedResult (runSingleEpisode oracle ep).1 })
      ∧ failLogs (Ser.process_episode_batch oracle batch).events
          = batch.filterMap (fun ep =>
              (failReason (runSingleEpisode oracle ep).1).map (fun m => (ep.url, m)))
      ∧ (Ser.process_episode_batch oracle batch).errors_in_batch
          = (batch.filter (fun ep =>
              (failReason (runSingleEpisode oracle ep).1).isSome)).length
      ∧ (Ser.process_episode_batch oracle batch).processed_in_batch
          = (batch.filter (fun ep =>
              (failReason (runSingleEpisode oracle ep).1).isNone)).length
      ∧ extractUrls (Ser.process_episode_batch oracle batch).events
          = batch.filterMap (fun ep => if ep.url.isEmpty then none else some ep.url)
      ∧ (∀ ep ∈ batch,
          truthy (recordedResult (runSingleEpisode oracle ep).1) = true
          ∨ (ep.url, (failReason (runSingleEpisode oracle ep).1).getD "")
              ∈ failLogs (Ser.process_episode_batch oracle batch).events)
      ∧ (V.process_episode_batch oracle batch).updated
          = batch.map (fun ep =>
              { ep with iframe_url := recordedResult (runSingleEpisode oracle ep).1 })
      ∧ (V.process_episode_batch oracle batch).errors_in_batch
          = (batch.filter (fun ep =>
              (failReason (runSingleEpisode oracle ep).1).isSome)).length
      ∧ failLogs (V.process_episode_batch oracle batch).events = [] := by
  intro oracle batch
  refine ⟨ser_batch_updated oracle batch, ser_batch_failLogs oracle batch,
    ser_batch_errors oracle batch, ser_batch_processed oracle batch,
    ser_batch_extractUrls oracle batch, ?_, v_batch_updated oracle batch,
    v_batch_errors oracle batch, v_batch_failLogs oracle batch⟩
  intro ep hep
  cases hfr : failReason (runSingleEpisode oracle ep).1 with
  | none =>
    left
    rw [← failReason_isNone_iff, hfr]
    rfl
  | some m =>
    right
    rw [ser_batch_failLogs]
    apply List.mem_filterMap.mpr
    exact ⟨ep, hep, by simp [hfr]⟩

/-- Witness for C8 on a one-episode batch whose task raises: the ser.py
variant stores a null result and logs exactly one record with the
captured reason. -/
theorem C8_failure_bookkeeping_witness :
    ("u", "boom") ∈ failLogs (Ser.process_episode_batch
      (fun _ => TaskOutcome.exn "boom") [{ url := "u", iframe_url := none }]).events := by
  have h := (C8_failure_bookkeeping (fun _ => TaskOutcome.exn "boom")
    [{ url := "u", iframe_url := none }]).2.2.2.2.2.1
    { url := "u", iframe_url := none } (by simp)
  rcases h with h1 | h1
  · exact absurd h1 (by decide)
  · simpa [runSingleEpisode, failReason] using h1

/-- C8 counterexample: in the v.py variant a sub-item whose task raises
ends with a null result and no failure record anywhere in the trace —
contradicting the claim that the batch processor emits exactly one
FailureRecord per failed sub-item and that every originally-pending
sub-item ends with a non-null result or a FailureRecord. -/
theorem C8_counterexample :
    (V.process_episode_batch (fun _ => TaskOutcome.exn "boom")
        [{ url := "u", iframe_url := none }]).updated
      = [{ url := "u", iframe_url := none }]
    ∧ failLogs (V.process_episode_batch (fun _ => TaskOutcome.exn "boom")
        [{ url := "u", iframe_url := none }]).events = []
    ∧ (V.process_episode_batch (fun _ => TaskOutcome.exn "boom")
        [{ url := "u", iframe_url := none }]).errors_in_batch = 1 := by
  refine ⟨?_, ?_, ?_⟩ <;> rfl

/-! ### Fully-processed work items -/

theorem pendingInEpisodes_nil_of_done (ai : Nat) :
    ∀ (j : Nat) (es : List Episode), (∀ e ∈ es, truthy e.iframe_url = true) →
      pendingInEpisodes ai j es = [] := by
  intro j es
  induction es generalizing j with
  | nil => intro h; rfl
  | cons e rest ih =>
    intro h
    have he : truthy e.iframe_url = true := h e (List.mem_cons_self _ _)
    have hp : pendingEp e = false := by simp [pendingEp, he]
    simp only [pendingInEpisodes, hp]
    exact ih (j + 1) (fun x hx => h x (List.mem_cons_of_mem _ hx))

theorem pendingPositions_nil_of_done (d : WorkData)
    (h : (d.anime.all (fun a => a.episodes.all (fun e => truthy e.iframe_url))) = true) :
    pendingPositions d = [] := by
  rw [pendingPositions]
  rw [List.all_eq_true] at h
  have hgen : ∀ (i : Nat) (l : List Anime),
      (∀ a ∈ l, (a.episodes.all (fun e => truthy e.iframe_url)) = true) →
      pendingInAnime i l = [] := by
    intro i l
    induction l generalizing i with
    | nil => intro _; rfl
    | cons a rest ih =>
      intro hl
      have ha := hl a (List.mem_cons_self _ _)
      rw [List.all_eq_true] at ha
      simp only [pendingInAnime]
      rw [pendingInEpisodes_nil_of_done i 0 a.episodes ha,
        ih (i + 1) (fun x hx => hl x (List.mem_cons_of_mem _ hx))]
      rfl
  exact hgen 0 d.anime h

theorem mem_insertFile (l : List String) (f : String) : f ∈ insertFile l f := by
  by_cases h : f ∈ l <;> simp [insertFile, h]

/-- C3 (amended): re-running on a work item whose sub-items all carry a
truthy result is a no-op in the v.py variant — zero extraction calls,
zero writes, immediate success with the data untouched and the file
counted processed; the ser.py variant also performs zero extraction calls
and returns success, but still writes the (unchanged) work item back to
the file exactly once before marking it completed. -/
theorem C3_rerun_on_completed_item :
    ∀ (mb mt : Nat) (oracle : Oracle) (d : WorkData) (fp inst : String)
      (now : Nat) (lk : LockStore) (gp : GlobalProgress),
      (d.anime.all (fun a => a.episodes.all (fun e => truthy e.iframe_url))) = true →
      (V.process_file mb mt oracle (ReadOutcome.ok d) fp now lk).result = RunResult.ret true
      ∧ extractUrls (V.process_file mb mt oracle (ReadOutcome.ok d) fp now lk).events = []
      ∧ persistedDatas (V.process_file mb mt oracle (ReadOutcome.ok d) fp now lk).events = []
      ∧ (V.process_file mb mt oracle (ReadOutcome.ok d) fp now lk).data = some d
      ∧ (V.process_file mb mt oracle (ReadOutcome.ok d) fp now lk).files_processed_delta = 1
      ∧ (Ser.process_file oracle (ReadOutcome.ok d) fp inst now lk gp).result = RunResult.ret true
      ∧ extractUrls (Ser.process_file oracle (ReadOutcome.ok d) fp inst now lk gp).events = []
      ∧ persistedDatas (Ser.process_file oracle (ReadOutcome.ok d) fp inst now lk gp).events = [d]
      ∧ fp ∈ (Ser.process_file oracle (ReadOutcome.ok d) fp inst now lk gp).progress.completed_files := by
  intro mb mt oracle d fp inst now lk gp h
  have hpend := pendingPositions_nil_of_done d h
  have hw : Ser.waves d = [] := by
    rw [Ser.waves, hpend]
    rfl
  have hser : Ser.process_file oracle (ReadOutcome.ok d) fp inst now lk gp
      = { result := RunResult.ret true
          data := some d
          locks := unlock_file (lock_file lk fp now) fp
          progress := mark_file_completed (mark_file_started gp fp inst) fp
          events := [Event.lockAcq fp, Event.persist d, Event.lockRel fp] } := by
    simp [Ser.process_file, hw, Ser.runWaves]
  refine ⟨?_, ?_, ?_, ?_, ?_, ?_, ?_, ?_, ?_⟩
  · simp [V.process_file, hpend]
  · simp [V.process_file, hpend, extractUrls]
  · simp [V.process_file, hpend, persistedDatas]
  · simp [V.process_file, hpend]
  · simp [V.process_file, hpend]
  · rw [hser]
  · rw [hser]; simp [extractUrls]
  · rw [hser]; simp [persistedDatas]
  · rw [hser]
    exact mem_insertFile _ fp

/-- A fully-processed one-episode work item. -/
def dDone : WorkData := ⟨[⟨[{ url := "u1", iframe_url := some "x" }]⟩]⟩

/-- C3 counterexample: on a work item whose every sub-item already has a
non-null result, ser.py `process_file` still performs one write of the
work-item file — the claim promises zero writes. -/
theorem C3_counterexample :
    (persistedDatas (Ser.process_file oracleConst (ReadOutcome.ok dDone)
      "f" "I" 0 [] ⟨[], [], 1⟩).events).length = 1 := by
  rfl

/-- Witness for C3 at the same concrete item: the v.py variant really is
a no-op success with zero extraction calls and zero writes. -/
theorem C3_rerun_on_completed_item_witness :
    (V.process_file 2 2 oracleConst (ReadOutcome.ok dDone) "f" 0 []).result
        = RunResult.ret true
    ∧ extractUrls (V.process_file 2 2 oracleConst (ReadOutcome.ok dDone) "f" 0 []).events = []
    ∧ persistedDatas (V.process_file 2 2 oracleConst (ReadOutcome.ok dDone) "f" 0 []).events = [] := by
  have h := C3_rerun_on_completed_item 2 2 oracleConst dDone "f" "I" 0 [] ⟨[], [], 1⟩
    (by rfl)
  exact ⟨h.1, h.2.1, h.2.2.1⟩

/-! ### Checkpoint lemmas -/

theorem chunkList_nil {α : Type} (n : Nat) : chunkList n ([] : List α) = [] := by
  have h : ((List.length ([] : List α)) + n - 1) / n = 0 := by
    cases n with
    | zero => simp
    | succ m =>
      simp only [List.length_nil, Nat.zero_add, Nat.succ_sub_one]
      exact Nat.div_eq_of_lt (Nat.lt_succ_self m)
  rw [chunkList, h]
  rfl

theorem ser_runWaves_persistedDatas (oracle : Oracle) :
    ∀ (ws : List (List Pos)) (d : WorkData),
      persistedDatas (Ser.runWaves oracle d ws).2 = [] := by
  intro ws
  induction ws with
  | nil => intro d; rfl
  | cons w rest ih =>
    intro d
    simp only [Ser.runWaves, persistedDatas_append]
    rw [show (Ser.stepWave oracle d w).2
        = Ser.process_episode_batch oracle (w.map (epAtD d)) from rfl]
    rw [ser_batch_persistedDatas, ih]
    rfl

theorem v_runWaves_persistedDatas (oracle : Oracle) :
    ∀ (ws : List (List Pos)) (d : WorkData),
      persistedDatas (V.runWaves oracle d ws).2 = V.checkpoints oracle d ws := by
  intro ws
  induction ws with
  | nil => intro d; rfl
  | cons w rest ih =>
    intro d
    simp only [V.runWaves, V.checkpoints, persistedDatas_append]
    rw [show (V.stepWave oracle d w).2
        = V.process_episode_batch oracle (w.map (epAtD d)) from rfl]
    rw [v_batch_persistedDatas]
    simp only [List.nil_append]
    rw [show persistedDatas (Event.persist (V.stepWave oracle d w).1 :: (V.runWaves oracle (V.stepWave oracle d w).1 rest).2)
        = (V.stepWave oracle d w).1 :: persistedDatas (V.runWaves oracle (V.stepWave oracle d w).1 rest).2 from rfl]
    rw [ih]

theorem v_checkpoints_get (oracle : Oracle) :
    ∀ (ws : List (List Pos)) (d : WorkData) (k : Nat), k < ws.length →
      (V.checkpoints oracle d ws).get? k
        = some ((ws.take (k + 1)).foldl (fun acc w1 => (V.stepWave oracle acc w1).1) d) := by
  intro ws
  induction ws with
  | nil => intro d k h; simp at h
  | cons w rest ih =>
    intro d k h
    cases k with
    | zero => simp [V.checkpoints]
    | succ k1 =>
      have h1 : k1 < rest.length := by simpa using h
      simp only [V.checkpoints, List.get?, List.take, List.foldl]
      exact ih (V.stepWave oracle d w).1 k1 h1

theorem get?_updList {α : Type} :
    ∀ (l : List α) (i j : Nat) (f : α → α),
      (updList i f l).get? j = if i = j then (l.get? j).map f else l.get? j := by
  intro l
  induction l with
  | nil =>
    intro i j f
    cases i <;> simp [updList]
  | cons x xs ih =>
    intro i j f
    cases i with
    | zero =>
      cases j with
      | zero => simp [updList]
      | succ j1 => simp [updList]
    | succ i1 =>
      cases j with
      | zero => simp [updList]
      | succ j1 => simpa [updList] using ih i1 j1 f

theorem episodeAt_set_ne (d : WorkData) (q : Pos) (e : Episode) (p : Pos)
    (h : q ≠ p) : episodeAt (setEpisodeAt d q e) p = episodeAt d p := by
  by_cases h1 : q.1 = p.1
  · have h2 : q.2 ≠ p.2 := by
      intro hc
      exact h (Prod.ext h1 hc)
    simp only [episodeAt, setEpisodeAt]
    rw [get?_updList, if_pos h1]
    cases hg : d.anime.get? p.1 with
    | none => rfl
    | some a =>
      simp only [Option.map_some', Option.some_bind]
      rw [get?_updList, if_neg h2]
  · simp only [episodeAt, setEpisodeAt]
    rw [get?_updList, if_neg h1]

theorem applyUpdates_untouched (p : Pos) :
    ∀ (ups : List (Pos × Episode)) (d : WorkData), (∀ pr ∈ ups, pr.1 ≠ p) →
      episodeAt (applyUpdates d ups) p = episodeAt d p := by
  intro ups
  induction ups with
  | nil => intro d _; rfl
  | cons u rest ih =>
    intro d h
    obtain ⟨q, e⟩ := u
    have hq : q ≠ p := h (q, e) (List.mem_cons_self _ _)
    simp only [applyUpdates, List.foldl_cons]
    rw [show List.foldl (fun acc pr => setEpisodeAt acc pr.1 pr.2) (setEpisodeAt d q e) rest
        = applyUpdates (setEpisodeAt d q e) rest from rfl]
    rw [ih (setEpisodeAt d q e) (fun pr hpr => h pr (List.mem_cons_of_mem _ hpr))]
    exact episodeAt_set_ne d q e p hq

theorem v_stepWave_untouched (oracle : Oracle) (d : WorkData) (w : List Pos)
    (p : Pos) (hp : p ∉ w) :
    episodeAt ((V.stepWave oracle d w).1) p = episodeAt d p := by
  apply applyUpdates_untouched
  intro pr hpr
  have hm := List.of_mem_zip hpr
  intro hc
  rw [hc] at hm
  exact hp hm.1

/-- C1 (amended): in the v.py variant the run persists the work item
after every wave and before the next one — the persisted snapshots are
exactly the checkpoint sequence, whose k-th entry is the work item with
precisely the first k+1 waves applied, waves leaving all positions
outside themselves untouched; the ser.py variant instead persists the
work item exactly once, after all waves, so an interruption between waves
loses the whole run. -/
theorem C1_checkpoint_per_wave :
    ∀ (mb mt : Nat) (oracle : Oracle) (d : WorkData) (fp inst : String) (now : Nat)
      (lk : LockStore) (gp : GlobalProgress) (ws : List (List Pos)) (w : List Pos)
      (p : Pos) (k : Nat),
      0 < mb * mt →
      (persistedDatas (V.process_file mb mt oracle (ReadOutcome.ok d) fp now lk).events
          = V.checkpoints oracle d (V.waves mb mt d))
      ∧ (k < ws.length →
          (V.checkpoints oracle d ws).get? k
            = some ((ws.take (k + 1)).foldl (fun acc w1 => (V.stepWave oracle acc w1).1) d))
      ∧ (p ∉ w → episodeAt ((V.stepWave oracle d w).1) p = episodeAt d p)
      ∧ persistedDatas (Ser.process_file oracle (ReadOutcome.ok d) fp inst now lk gp).events
          = [(Ser.runWaves oracle d (Ser.waves d)).1] := by
  intro mb mt oracle d fp inst now lk gp ws w p k hcap
  refine ⟨?_, v_checkpoints_get oracle ws d k, v_stepWave_untouched oracle d w p, ?_⟩
  · by_cases hpd : pendingPositions d = []
    · have hwv : V.waves mb mt d = [] := by
        rw [V.waves, hpd]
        exact chunkList_nil _
      simp [V.process_file, hpd, hwv, persistedDatas, V.checkpoints]
    · simp only [V.process_file, if_neg hpd]
      rw [show persistedDatas (Event.lockAcq fp ::
          ((V.runWaves oracle d (V.waves mb mt d)).2 ++ [Event.lockRel fp]))
          = persistedDatas ((V.runWaves oracle d (V.waves mb mt d)).2 ++ [Event.lockRel fp])
        from rfl]
      rw [persistedDatas_append, v_runWaves_persistedDatas]
      simp [persistedDatas]
  · simp only [Ser.process_file]
    rw [show persistedDatas (Event.lockAcq fp ::
        ((Ser.runWaves oracle d (Ser.waves d)).2
          ++ [Event.persist (Ser.runWaves oracle d (Ser.waves d)).1, Event.lockRel fp]))
        = persistedDatas ((Ser.runWaves oracle d (Ser.waves d)).2
          ++ [Event.persist (Ser.runWaves oracle d (Ser.waves d)).1, Event.lockRel fp])
      from rfl]
    rw [persistedDatas_append, ser_runWaves_persistedDatas]
    simp [persistedDatas]

/-- A work item with six pending episodes: two ser.py waves (5 + 1). -/
def dSix : WorkData :=
  ⟨[⟨[{ url := "u1", iframe_url := none }, { url := "u2", iframe_url := none },
      { url := "u3", iframe_url := none }, { url := "u4", iframe_url := none },
      { url := "u5", iframe_url := none }, { url := "u6", iframe_url := none }]⟩]⟩

/-- C1 counterexample: a six-episode work item is processed by ser.py
`process_file` in two waves, yet only one durable write occurs in the
whole run — not one write after each wave as the claim states, so
interrupting between the waves loses both waves. -/
theorem C1_counterexample :
    (Ser.waves dSix).length = 2
    ∧ (persistedDatas (Ser.process_file oracleConst (ReadOutcome.ok dSix) "f" "I" 0 []
        ⟨[], [], 1⟩).events).length = 1 := by
  exact ⟨rfl, rfl⟩

/-- Witness for C1: on the same item the v.py run writes exactly the
checkpoint sequence, and a wave step leaves positions outside the wave
untouched. -/
theorem C1_checkpoint_per_wave_witness :
    persistedDatas (V.process_file 2 1 oracleConst (ReadOutcome.ok dSix) "f" 0 []).events
        = V.checkpoints oracleConst dSix (V.waves 2 1 dSix)
    ∧ episodeAt ((V.stepWave oracleConst dSix [(0, 0), (0, 1)]).1) (0, 5)
        = episodeAt dSix (0, 5) := by
  have h := C1_checkpoint_per_wave 2 1 oracleConst dSix "f" "I" 0 [] ⟨[], [], 1⟩
    [] [(0, 0), (0, 1)] (0, 5) 0 (by decide)
  exact ⟨h.1, h.2.2.1 (by decide)⟩

/-! ### Wave-partition arithmetic -/

theorem chunkList_mem (n : Nat) (hn : 0 < n) {α : Type} (l : List α) :
    ∀ c ∈ chunkList n l, c.length ≤ n ∧ c ≠ [] := by
  intro c hc
  rw [chunkList] at hc
  rcases List.mem_map.mp hc with ⟨i, hi, rfl⟩
  have hiN : i < (l.length + n - 1) / n := List.mem_range.mp hi
  have hle : (i + 1) * n ≤ l.length + n - 1 :=
    (Nat.le_div_iff_mul_le hn).mp (Nat.succ_le_of_lt hiN)
  have hsm : (i + 1) * n = i * n + n := Nat.succ_mul i n
  have hlt : i * n < l.length := by omega
  constructor
  · simp [List.length_take]
  · have hpos : 0 < ((l.drop (i * n)).take n).length := by
      simp only [List.length_take, List.length_drop]
      omega
    exact List.ne_nil_of_length_pos hpos

theorem chunkList_cons (n : Nat) (hn : 0 < n) {α : Type} (l : List α) (hl : l ≠ []) :
    chunkList n l = l.take n :: chunkList n (l.drop n) := by
  have hlpos : 0 < l.length := List.length_pos.mpr hl
  have hq : (l.length + n - 1) / n = (l.length - 1) / n + 1 := by
    have he : l.length + n - 1 = (l.length - 1) + n := by omega
    rw [he, Nat.add_div_right _ hn]
  have hq2 : ((l.drop n).length + n - 1) / n = (l.length - 1) / n := by
    rw [List.length_drop]
    rcases le_or_lt n l.length with hle | hlt
    · have he : l.length - n + n - 1 = l.length - 1 := by omega
      rw [he]
    · have he : l.length - n = 0 := by omega
      rw [he]
      have h1 : (0 + n - 1) / n = 0 := Nat.div_eq_of_lt (by omega)
      have h2 : (l.length - 1) / n = 0 := Nat.div_eq_of_lt (by omega)
      rw [h1, h2]
  rw [chunkList, chunkList, hq, hq2, List.range_succ_eq_map]
  rw [List.map_cons, List.map_map]
  congr 1
  · simp
  · apply List.map_congr_left
    intro i _
    show (l.drop ((i + 1) * n)).take n = ((l.drop n).drop (i * n)).take n
    rw [List.drop_drop, Nat.succ_mul]
    congr 2
    omega

theorem chunkList_flatten (n : Nat) (hn : 0 < n) {α : Type} :
    ∀ (l : List α), (chunkList n l).flatten = l := by
  suffices hN : ∀ (N : Nat) (l : List α), l.length ≤ N → (chunkList n l).flatten = l by
    intro l
    exact hN l.length l (Nat.le_refl _)
  intro N
  induction N with
  | zero =>
    intro l hl
    have hnil : l = [] := List.eq_nil_of_length_eq_zero (Nat.le_zero.mp hl)
    rw [hnil, chunkList_nil]
    rfl
  | succ N1 ih =>
    intro l hl
    by_cases hnil : l = []
    · rw [hnil, chunkList_nil]
      rfl
    · rw [chunkList_cons n hn l hnil, List.flatten_cons]
      rw [ih (l.drop n) (by
        rw [List.length_drop]
        have : 0 < l.length := List.length_pos.mpr hnil
        omega)]
      exact List.take_append_drop n l

theorem chunkList_last (n : Nat) (hn : 0 < n) {α : Type} (l : List α) (hl : l ≠ []) :
    ∃ c, (chunkList n l).get? ((chunkList n l).length - 1) = some c
      ∧ c.length = if n ∣ l.length then n else l.length % n := by
  have hlpos : 0 < l.length := List.length_pos.mpr hl
  set N := (l.length + n - 1) / n with hNdef
  have hN1 : N = (l.length - 1) / n + 1 := by
    have he : l.length + n - 1 = (l.length - 1) + n := by omega
    rw [hNdef, he, Nat.add_div_right _ hn]
  have hNpos : 0 < N := by
    rw [hN1]
    exact Nat.succ_pos _
  have hlen : (chunkList n l).length = N := by
    rw [chunkList]
    simp only [List.length_map, List.length_range]
  refine ⟨(l.drop ((N - 1) * n)).take n, ?_, ?_⟩
  · rw [hlen, chunkList, List.get?_map, List.get?_range (Nat.sub_lt hNpos Nat.one_pos)]
    rfl
  · have hctop : ((l.drop ((N - 1) * n)).take n).length
        = min n (l.length - (N - 1) * n) := by
      simp [List.length_take, List.length_drop]
    rw [hctop]
    rcases Nat.eq_zero_or_pos (l.length % n) with hr | hr
    · have hdvd : n ∣ l.length := Nat.dvd_of_mod_eq_zero hr
      rw [if_pos hdvd]
      obtain ⟨q, hq⟩ := hdvd
      have hq0 : q ≠ 0 := by
        intro h0
        rw [h0, Nat.mul_zero] at hq
        omega
      have hNq : N = q := by
        have he2 : n * q + n - 1 = n * q + (n - 1) := by omega
        rw [hNdef, hq, he2, Nat.mul_add_div hn, Nat.div_eq_of_lt (by omega), Nat.add_zero]
      have h1 : (q - 1) * n = q * n - n := by
        rw [Nat.sub_mul, Nat.one_mul]
      have h3 : n ≤ q * n := by
        have := Nat.mul_le_mul_right n (show 1 ≤ q by omega)
        simpa using this
      have h4 : l.length - (q - 1) * n = n := by
        rw [hq, Nat.mul_comm n q, h1, Nat.sub_sub_self h3]
      rw [hNq, h4]
      exact Nat.min_self n
    · have hnd : ¬ n ∣ l.length := by
        intro hdvd
        obtain ⟨q0, hq0⟩ := hdvd
        rw [hq0, Nat.mul_mod_right] at hr
        omega
      rw [if_neg hnd]
      set q := l.length / n with hqdef
      set r := l.length % n with hrdef
      have hdm : n * q + r = l.length := Nat.div_add_mod l.length n
      have hrn : r < n := Nat.mod_lt _ hn
      have hNq : N = q + 1 := by
        rw [hNdef]
        have he2 : l.length + n - 1 = n * (q + 1) + (r - 1) := by
          have hmq : n * (q + 1) = n * q + n := by
            rw [Nat.mul_add, Nat.mul_one]
          omega
        rw [he2, Nat.mul_add_div hn, Nat.div_eq_of_lt (by omega)]
      have h4 : l.length - (N - 1) * n = r := by
        rw [hNq]
        simp only [Nat.add_sub_cancel]
        have h2 : q * n = n * q := Nat.mul_comm q n
        omega
      rw [h4]
      exact Nat.min_eq_right (Nat.le_of_lt hrn)

/-- C5 (amended): for a work item with P pending sub-items, both variants
partition the pending list into exactly `(P + W - 1) / W` consecutive,
nonempty waves of at most W entries, the last wave holding `P mod W`
entries (or W when W divides P); but W equals the pool-wide tab capacity
`browsers * tabs_per_browser` only in the v.py variant — the ser.py
variant always uses the fixed wave size 5, whatever the capacity. -/
theorem C5_wave_partition :
    ∀ (mb mt : Nat) (d : WorkData), 0 < mb * mt →
      (V.waves mb mt d).flatten = pendingPositions d
      ∧ (V.waves mb mt d).length
          = ((pendingPositions d).length + V.batch_size mb mt - 1) / V.batch_size mb mt
      ∧ (∀ c ∈ V.waves mb mt d, c.length ≤ V.batch_size mb mt ∧ c ≠ [])
      ∧ (pendingPositions d ≠ [] →
          ∃ c, (V.waves mb mt d).get? ((V.waves mb mt d).length - 1) = some c
            ∧ c.length = if V.batch_size mb mt ∣ (pendingPositions d).length
                then V.batch_size mb mt
                else (pendingPositions d).length % V.batch_size mb mt)
      ∧ V.batch_size mb mt = mb * mt
      ∧ Ser.waves d = chunkList 5 (pendingPositions d)
      ∧ (Ser.waves d).flatten = pendingPositions d := by
  intro mb mt d hcap
  have hW : 0 < V.batch_size mb mt := hcap
  refine ⟨chunkList_flatten _ hW _, ?_, chunkList_mem _ hW _, ?_, rfl, rfl,
    chunkList_flatten 5 (by omega) _⟩
  · rw [V.waves, chunkList]
    simp only [List.length_map, List.length_range]
  · intro hne
    exact chunkList_last _ hW _ hne

/-- A work item with nine pending episodes: with the ser.py defaults of
3 browsers times 3 tabs the capacity is 9, yet ser.py cuts waves of 5. -/
def dNine : WorkData :=
  ⟨[⟨[{ url := "w1", iframe_url := none }, { url := "w2", iframe_url := none },
      { url := "w3", iframe_url := none }, { url := "w4", iframe_url := none },
      { url := "w5", iframe_url := none }, { url := "w6", iframe_url := none },
      { url := "w7", iframe_url := none }, { url := "w8", iframe_url := none },
      { url := "w9", iframe_url := none }]⟩]⟩

/-- C5 counterexample: under the ser.py constructor defaults the
pool-wide capacity is 3 * 3 = 9, but ser.py splits a 9-episode pending
list into waves of sizes [5, 4] — its wave size is the constant 5, not
the capacity, contradicting the claim for that variant. -/
theorem C5_counterexample :
    (Ser.waves dNine).map List.length = [5, 4]
    ∧ Ser.default_max_browsers * Ser.default_max_tabs_per_browser = 9
    ∧ Ser.batch_size = 5
    ∧ ¬(Ser.batch_size = Ser.default_max_browsers * Ser.default_max_tabs_per_browser) := by
  refine ⟨rfl, rfl, rfl, by decide⟩

/-- Witness for C5 with capacity 3 * 3 in the v.py variant: one wave of
nine entries covering the whole pending list. -/
theorem C5_wave_partition_witness :
    (V.waves 3 3 dNine).flatten = pendingPositions dNine
    ∧ (V.waves 3 3 dNine).length
        = ((pendingPositions dNine).length + V.batch_size 3 3 - 1) / V.batch_size 3 3
    ∧ V.batch_size 3 3 = 3 * 3 := by
  have h := C5_wave_partition 3 3 dNine (by decide)
  exact ⟨h.1, h.2.1, h.2.2.2.2.1⟩
